import Mathlib

/- A verification development for the Eliza chatbot rule engine
   (ianmcloughlin/eliza).  The repository holds two variants of the program:
   the `RespondTo` variant (types `Replacer`/`Eliza`, functions
   `ReadReplacersFromFile` and `RespondTo`) and the `analyse` variant (types
   `substitution`/`response`, functions `readresponses`, `readsubstitutions`
   and `analyse`).  Both are embedded below.  A compiled Go regular expression
   is embedded as the record of the three `regexp` operations the program
   applies to it; the concrete instances used in concrete statements model
   concrete regexes, as documented on each.  The global `math/rand` source is
   embedded as an injected stream of draws, and `rand.Intn 0`, which aborts
   the Go program, is embedded as `none`. -/

/-- Characters of the tokenising regex `[\s,.?!]+` of `RespondTo`: the RE2
white space class (tab, newline, form feed, carriage return, space) together
with comma, period, question mark and exclamation point. -/
def isBoundaryChar (c : Char) : Bool :=
  c == ' ' || c == '\t' || c == '\n' || c == '\x0c' || c == '\r' ||
  c == ',' || c == '.' || c == '?' || c == '!'

/-- Core of `regexp.Split` for the run regex `[\s,.?!]+`: walks the
characters, cutting a token at each maximal run of boundary characters.  The
flag records whether the previous character belonged to a run, and `acc`
holds the current token reversed.  Like Go, the substrings before the first
run and after the last run are kept even when empty. -/
def splitCore : List Char → Bool → List Char → List (List Char)
  | [], _, acc => [acc.reverse]
  | c :: cs, prevB, acc =>
    if isBoundaryChar c then
      if prevB then splitCore cs true acc
      else acc.reverse :: splitCore cs true []
    else splitCore cs false (c :: acc)

/-- `boundaries.Split(text, -1)` for `boundaries = [\s,.?!]+` (eliza.go,
`RespondTo`). -/
def splitBoundaries (s : String) : List String :=
  (splitCore s.data false []).map String.mk

/-- Substring containment over character lists; `containsSub pat s` holds iff
`pat` occurs contiguously inside `s`.  This is Go `MatchString` for a pattern
with no metacharacters. -/
def containsSub (pat : List Char) : List Char → Bool
  | [] => pat.isEmpty
  | c :: rest => pat.isPrefixOf (c :: rest) || containsSub pat rest

/-- Fuelled core of `strings.Replace(s, pat, rep, -1)`: scans left to right,
replacing each non-overlapping occurrence of `pat`, and continues after the
inserted replacement.  The fuel is at least the number of characters plus one
at every call, so the fuel-exhausted branch is never reached. -/
def replaceAllCore : Nat → List Char → List Char → List Char → List Char
  | 0, s, _, _ => s
  | _ + 1, [], _, _ => []
  | fuel + 1, c :: rest, pat, rep =>
    if !pat.isEmpty && pat.isPrefixOf (c :: rest) then
      rep ++ replaceAllCore fuel (List.drop pat.length (c :: rest)) pat rep
    else
      c :: replaceAllCore fuel rest pat rep

/-- `strings.Replace(s, pat, rep, -1)` for a non-empty `pat` (the program
only ever passes the patterns `$1`, `$2`, ... and `~~`). -/
def strReplaceAll (s pat rep : String) : String :=
  String.mk (replaceAllCore (s.data.length + 1) s.data pat.data rep.data)

/-- `strings.HasPrefix`. -/
def strHasPre (s pre : String) : Bool := pre.data.isPrefixOf s.data

/-- A compiled Go regular expression, embedded as the record of the three
`regexp` package operations the program applies to it: `FindStringSubmatch`
(the whole match followed by the captured groups, or `none`), `MatchString`
(does the pattern match anywhere in the string), and `ReplaceAllString`. -/
structure Regexp where
  FindStringSubmatch : String → Option (List String)
  MatchString : String → Bool
  ReplaceAllString : String → String → String

/-- The Go regex compiled from a pattern with no metacharacters: it matches a
string iff the pattern occurs in it as a substring, `FindStringSubmatch` has
no capture groups, and `ReplaceAllString` — used here only with replacement
strings free of `$` — rewrites every non-overlapping occurrence. -/
def literalRegexp (pat : String) : Regexp where
  FindStringSubmatch s := if containsSub pat.data s.data then some [pat] else none
  MatchString s := containsSub pat.data s.data
  ReplaceAllString s rep := strReplaceAll s pat rep

/-- The Go regex that is a concatenation of parenthesised literal groups,
such as `(a)(b)(c)(d)(e)(f)(g)(h)(i)(j)`: it matches iff the concatenation
occurs as a substring, and its submatches are the whole concatenation
followed by each group in order. -/
def litGroupsRegexp (gs : List String) : Regexp where
  FindStringSubmatch s :=
    if containsSub (String.join gs).data s.data then some (String.join gs :: gs) else none
  MatchString s := containsSub (String.join gs).data s.data
  ReplaceAllString s rep := strReplaceAll s (String.join gs) rep

/-- The stream of draws taken from the global `math/rand` source: entry `k`
is the value behind the `k`-th remaining call to `rand.Intn`. -/
abbrev Rng := List Nat

/-- `rand.Intn n`: for positive `n` the next draw is reduced into `[0, n)`
and the stream advances; `rand.Intn 0` aborts the Go program, embedded as
`none`. -/
def intn (g : Rng) (n : Nat) : Option (Nat × Rng) :=
  if n = 0 then none else some (g.headD 0 % n, g.tail)

/-- eliza.go (`RespondTo` variant): a compiled regex paired with the possible
replacement strings read from its rule-file section. -/
structure Replacer where
  original : Regexp
  replacements : List String

/-- eliza.go (`RespondTo` variant): the chatbot state, two ordered rule
lists; both are scanned first to last. -/
structure Eliza where
  responses : List Replacer
  substitutions : List Replacer

/-- The assignment appending a line to
`replacers[len(replacers)-1].replacements` in `ReadReplacersFromFile`; the
list is never empty when the program reaches that assignment. -/
def appendToLast : List Replacer → String → List Replacer
  | [], _ => []
  | [r], line => [⟨r.original, r.replacements ++ [line]⟩]
  | r :: r2 :: rest, line => r :: appendToLast (r2 :: rest) line

/-- The scanner loop of `ReadReplacersFromFile` over the file's lines;
`compile` stands for `regexp.MustCompile` and `ro` for the `readoriginal`
flag.  Comment lines are skipped, a blank line clears the flag, a line seen
with the flag clear starts a rule with an empty replacement list, and any
other line is appended to the last rule's replacements. -/
def readLoop (compile : String → Regexp) : List String → Bool → List Replacer → List Replacer
  | [], _, acc => acc
  | line :: rest, ro, acc =>
    if strHasPre line "#" then readLoop compile rest ro acc
    else if line.length = 0 then readLoop compile rest false acc
    else if ro = false then readLoop compile rest true (acc ++ [⟨compile line, []⟩])
    else readLoop compile rest ro (appendToLast acc line)

/-- `ReadReplacersFromFile`, applied to the list of lines of the file. -/
def readReplacersFromLines (compile : String → Regexp) (lines : List String) : List Replacer :=
  readLoop compile lines false []

/-- The inner substitution scan of `RespondTo`: the first replacer whose
regex matches the token (Go `MatchString`, anywhere in the token) replaces it
with a randomly drawn replacement and the scan stops; `none` is the abort of
`rand.Intn 0` on an empty replacement list. -/
def substituteToken : List Replacer → String → Rng → Option (String × Rng)
  | [], token, g => some (token, g)
  | s :: rest, token, g =>
    if s.original.MatchString token then
      match intn g s.replacements.length with
      | none => none
      | some (j, g2) => some (s.replacements.getD j "", g2)
    else substituteToken rest token g

/-- The token loop of `RespondTo`, left to right over the split tokens. -/
def substituteTokens (subs : List Replacer) : List String → Rng → Option (List String × Rng)
  | [], g => some ([], g)
  | t :: ts, g =>
    match substituteToken subs t g with
    | none => none
    | some (t2, g2) =>
      match substituteTokens subs ts g2 with
      | none => none
      | some (ts2, g3) => some (t2 :: ts2, g3)

/-- One captured group's reflection pass inside `RespondTo`: split the group
on boundary runs, substitute each token, and join the tokens with single
spaces (`strings.Join(tokens, " ")`).  The spec names this block `Reflect`. -/
def reflectGroup (subs : List Replacer) (text : String) (g : Rng) : Option (String × Rng) :=
  match substituteTokens subs (splitBoundaries text) g with
  | none => none
  | some (ts, g2) => some (String.intercalate " " ts, g2)

/-- `"$" + strconv.Itoa i`. -/
def placeholder (i : Nat) : String := "$" ++ toString i

/-- The captured-group loop of `RespondTo`: each group in turn is reflected
and substituted for its placeholder in the accumulating output, all
occurrences at once, starting from `$1`. -/
def fillFrom (subs : List Replacer) : Nat → List String → String → Rng → Option (String × Rng)
  | _, [], out, g => some (out, g)
  | i, gr :: rest, out, g =>
    match reflectGroup subs gr g with
    | none => none
    | some (rf, g2) =>
      fillFrom subs (i + 1) rest (strReplaceAll out (placeholder i) rf) g2

/-- The body of `RespondTo` once a response rule has matched: draw a
template, then fill in the captured groups (element 0 of `ms` is the whole
match, not a group). -/
def applyRule (subs : List Replacer) (r : Replacer) (ms : List String) (g : Rng) : Option String :=
  match intn g r.replacements.length with
  | none => none
  | some (j, g2) =>
    match fillFrom subs 1 (ms.drop 1) (r.replacements.getD j "") g2 with
    | none => none
    | some (out, _) => some out

/-- The response scan of `RespondTo`: rules are tried in stored order and the
first whose regex matches the input is applied; if none matches, the fixed
fallback phrase is returned. -/
def respondAux (subs : List Replacer) : List Replacer → String → Rng → Option String
  | [], _, _ => some "I don't know what to say."
  | r :: rest, input, g =>
    match r.original.FindStringSubmatch input with
    | some ms => applyRule subs r ms g
    | none => respondAux subs rest input g

/-- `RespondTo` (eliza.go, `RespondTo` variant). -/
def respondTo (e : Eliza) (input : String) (g : Rng) : Option String :=
  respondAux e.substitutions e.responses input g

/-- `analyse` variant: a substitution rule, one regex and one replacement
string. -/
structure Substitution where
  original : Regexp
  substitute : String

/-- `analyse` variant: a response rule, a question regex and its answers. -/
structure Response where
  question : Regexp
  answers : List String

/-- `analyse` variant: the chatbot state. -/
structure ElizaA where
  responses : List Response
  substitutions : List Substitution

/-- The white space set of Go `strings.TrimSpace` (`unicode.IsSpace` over the
characters that occur in this program's data). -/
def isGoSpace (c : Char) : Bool :=
  c == ' ' || c == '\t' || c == '\n' || c == '\x0b' || c == '\x0c' || c == '\r' ||
  c == '\u0085' || c == '\u00a0'

/-- Go `strings.TrimSpace`. -/
def trimSpace (s : String) : String :=
  String.mk (((s.data.dropWhile isGoSpace).reverse.dropWhile isGoSpace).reverse)

/-- The reflection fold of `analyse`: every substitution regex in turn
rewrites the whole captured group (`ReplaceAllString`), trimming after each
step. -/
def reflectA (subs : List Substitution) (m : String) : String :=
  match subs with
  | [] => m
  | s :: rest => reflectA rest (trimSpace (s.original.ReplaceAllString m s.substitute))

/-- The captured-group loop of `analyse`: each group is reflected and
substituted for its placeholder in the accumulating answer, all occurrences
at once, starting from `$1`. -/
def fillA (subs : List Substitution) : Nat → List String → String → String
  | _, [], out => out
  | i, gr :: rest, out =>
    fillA subs (i + 1) rest (strReplaceAll out (placeholder i) (reflectA subs gr))

/-- The response scan of `analyse`, including the final `~~` stripping on a
matched rule; `none` is the abort of `rand.Intn 0` on an empty answer
list. -/
def analyseAux (subs : List Substitution) : List Response → String → Rng → Option String
  | [], _, _ => some "I don't know what to say."
  | r :: rest, input, g =>
    match r.question.FindStringSubmatch input with
    | some ms =>
      match intn g r.answers.length with
      | none => none
      | some (j, _) =>
        some (strReplaceAll (fillA subs 1 (ms.drop 1) (r.answers.getD j "")) "~~" "")
    | none => analyseAux subs rest input g

/-- `analyse` (eliza.go, `analyse` variant). -/
def analyse (e : ElizaA) (input : String) (g : Rng) : Option String :=
  analyseAux e.substitutions e.responses input g

/-- Rule-file fixture with two response rules: the first matches only inputs
containing `zzz`, the second only inputs containing `b`; no substitutions. -/
def e1 : Eliza :=
  ⟨[⟨literalRegexp "zzz", ["Z"]⟩, ⟨literalRegexp "b", ["B"]⟩], []⟩

/-- Rule-file fixture: one response rule whose regex
`(a)(b)(c)(d)(e)(f)(g)(h)(i)(j)` captures ten groups, with the single
template `Why $10?`; no substitutions. -/
def e6 : Eliza :=
  ⟨[⟨litGroupsRegexp ["a", "b", "c", "d", "e", "f", "g", "h", "i", "j"], ["Why $10?"]⟩], []⟩

/-- Rule-file fixture: one response rule matching inputs containing `a`, with
a single template that carries `~~` markers; no substitutions. -/
def e7 : Eliza :=
  ⟨[⟨literalRegexp "a", ["~~hi~~"]⟩], []⟩

/-- Rule-file fixture for the `analyse` variant: one response rule whose
regex `(tired)` captures the word, with the marker-bearing template of the
spec's marker-stripping scenario; no substitutions. -/
def eA : ElizaA :=
  ⟨[⟨litGroupsRegexp ["tired"], ["~~I hear you~~ say $1"]⟩], []⟩

theorem respondAux_append_of_none (subs pre rest : List Replacer) (input : String) (g : Rng)
    (h : ∀ p ∈ pre, p.original.FindStringSubmatch input = none) :
    respondAux subs (pre ++ rest) input g = respondAux subs rest input g := by
  induction pre with
  | nil => rfl
  | cons p ps ih =>
    have hp : p.original.FindStringSubmatch input = none := h p (List.mem_cons_self p ps)
    simp only [List.cons_append, respondAux, hp]
    exact ih (fun q hq => h q (List.mem_cons_of_mem p hq))

/-- C8: for every input matched by no response rule, `RespondTo` returns
exactly the fixed fallback phrase, as a defined (non-aborting) outcome. -/
theorem respondTo_fallback (e : Eliza) (input : String) (g : Rng)
    (h : ∀ r ∈ e.responses, r.original.FindStringSubmatch input = none) :
    respondTo e input g = some "I don't know what to say." := by
  have h2 := respondAux_append_of_none e.substitutions e.responses [] input g h
  simpa [respondTo, respondAux] using h2

/-- C8 witness: a concrete engine whose only rule does not match the spec's
input `xyzzy`. -/
theorem respondTo_fallback_w :
    respondTo ⟨[⟨literalRegexp "hello", ["hi"]⟩], []⟩ "xyzzy" [0] =
      some "I don't know what to say." :=
  respondTo_fallback ⟨[⟨literalRegexp "hello", ["hi"]⟩], []⟩ "xyzzy" [0] (by decide)

/-- C1: first-match-wins.  When the rules before `r` all fail to match the
input and `r` matches with submatch list `ms`, the reply of `RespondTo` is
built from one of `r`'s candidates only: it is the interpolation of the
candidate at the drawn index `j`, and the rules after `r` play no part. -/
theorem respondTo_first_match_wins (e : Eliza) (pre post : List Replacer) (r : Replacer)
    (ms : List String) (input : String) (g : Rng)
    (he : e.responses = pre ++ r :: post)
    (hpre : ∀ p ∈ pre, p.original.FindStringSubmatch input = none)
    (hr : r.original.FindStringSubmatch input = some ms)
    (hn : r.replacements ≠ []) :
    ∃ j, j < r.replacements.length ∧
      respondTo e input g =
        (fillFrom e.substitutions 1 (ms.drop 1) (r.replacements.getD j "") g.tail).map
          Prod.fst := by
  have hlen : r.replacements.length ≠ 0 := fun h0 => hn (List.length_eq_zero.mp h0)
  refine ⟨g.headD 0 % r.replacements.length, Nat.mod_lt _ (Nat.pos_of_ne_zero hlen), ?_⟩
  unfold respondTo
  rw [he, respondAux_append_of_none _ _ _ _ _ hpre]
  simp only [respondAux, hr]
  simp only [applyRule, intn, hlen, if_neg, ite_false, eq_self_iff_true]
  cases fillFrom e.substitutions 1 (ms.drop 1)
      (r.replacements.getD (g.headD 0 % r.replacements.length) "") g.tail <;> rfl

/-- C1 witness: in the fixture `e1` the input `b` matches the second rule
only, and the reply is built from that rule's single candidate. -/
theorem respondTo_first_match_wins_w :
    ∃ j, j < (Replacer.mk (literalRegexp "b") ["B"]).replacements.length ∧
      respondTo e1 "b" [0] =
        (fillFrom e1.substitutions 1 (List.drop 1 ["b"])
          ((Replacer.mk (literalRegexp "b") ["B"]).replacements.getD j "")
          (List.tail [0])).map Prod.fst :=
  respondTo_first_match_wins e1 [⟨literalRegexp "zzz", ["Z"]⟩] []
    ⟨literalRegexp "b", ["B"]⟩ ["b"] "b" [0] rfl (by decide) (by decide) (by decide)

theorem substituteToken_id_of_no_match (subs : List Replacer) (tok : String) (g : Rng)
    (h : ∀ u ∈ subs, u.original.MatchString tok = false) :
    substituteToken subs tok g = some (tok, g) := by
  induction subs with
  | nil => rfl
  | cons u us ih =>
    have hu : u.original.MatchString tok = false := h u (List.mem_cons_self u us)
    have hrest := ih (fun v hv => h v (List.mem_cons_of_mem u hv))
    simp [substituteToken, hu, hrest]

/-- C2 counterexample: the substitution regex `my` matches only a proper
substring of the token `myself` — not the whole token — and yet the token is
replaced, because the scan uses Go `MatchString` substring search. -/
theorem substituteToken_substring_cex :
    (literalRegexp "my").MatchString "myself" = true ∧ ("my" : String) ≠ "myself" ∧
      substituteToken [⟨literalRegexp "my", ["your"]⟩] "myself" [0] = some ("your", []) := by
  decide

/-- C2 amended: the substitution scan is first-match-wins over rules whose
pattern matches anywhere within the token.  With the rules before `s` failing
on the token and `s` matching it, the token is replaced by the candidate of
`s` at the drawn index and the rules after `s` are never consulted; and any
token matched by no rule passes through unchanged with the draw stream
untouched. -/
theorem substituteToken_first_match (pre post : List Replacer) (s : Replacer)
    (tok : String) (g : Rng)
    (hpre : ∀ u ∈ pre, u.original.MatchString tok = false)
    (hs : s.original.MatchString tok = true)
    (hn : s.replacements ≠ []) :
    substituteToken (pre ++ s :: post) tok g =
      some (s.replacements.getD (g.headD 0 % s.replacements.length) "", g.tail) ∧
    ∀ tok2 g2, (∀ u ∈ pre ++ s :: post, u.original.MatchString tok2 = false) →
      substituteToken (pre ++ s :: post) tok2 g2 = some (tok2, g2) := by
  constructor
  · have hlen : s.replacements.length ≠ 0 := fun h0 => hn (List.length_eq_zero.mp h0)
    induction pre with
    | nil => simp [substituteToken, hs, intn, hlen]
    | cons u us ih =>
      have hu : u.original.MatchString tok = false := hpre u (List.mem_cons_self u us)
      simp only [List.cons_append, substituteToken, hu, Bool.false_eq_true, if_false]
      exact ih (fun v hv => hpre v (List.mem_cons_of_mem u hv))
  · intro tok2 g2 hall
    exact substituteToken_id_of_no_match _ tok2 g2 hall

/-- C2 witness: the middle rule is the first whose pattern matches the token
`day`, its single candidate replaces the token, and a token matching no rule
is returned unchanged. -/
theorem substituteToken_first_match_w :
    substituteToken
        [⟨literalRegexp "qq", ["x"]⟩, ⟨literalRegexp "day", ["night"]⟩,
          ⟨literalRegexp "y", ["z"]⟩] "day" [0] =
      some (["night"].getD (List.headD [0] 0 % ["night"].length) "", List.tail [0]) ∧
    ∀ tok2 g2,
      (∀ u ∈ [Replacer.mk (literalRegexp "qq") ["x"], Replacer.mk (literalRegexp "day") ["night"],
          Replacer.mk (literalRegexp "y") ["z"]], u.original.MatchString tok2 = false) →
      substituteToken
          [⟨literalRegexp "qq", ["x"]⟩, ⟨literalRegexp "day", ["night"]⟩,
            ⟨literalRegexp "y", ["z"]⟩] tok2 g2 = some (tok2, g2) :=
  substituteToken_first_match [⟨literalRegexp "qq", ["x"]⟩]
    [⟨literalRegexp "y", ["z"]⟩] ⟨literalRegexp "day", ["night"]⟩ "day" [0]
    (by decide) (by decide) (by decide)

theorem substituteTokens_id_of_no_match (subs : List Replacer) (ts : List String)
    (h : ∀ t ∈ ts, ∀ u ∈ subs, u.original.MatchString t = false) :
    ∀ g, substituteTokens subs ts g = some (ts, g) := by
  induction ts with
  | nil => intro g; rfl
  | cons t ts ih =>
    intro g
    have h1 := substituteToken_id_of_no_match subs t g (h t (List.mem_cons_self t ts))
    have h2 := ih (fun t2 ht2 => h t2 (List.mem_cons_of_mem t ht2)) g
    simp [substituteTokens, h1, h2]

/-- C9 counterexample: the claim promises leading and trailing boundary runs
are removed, so reflecting `.a.` would give `a`; the code keeps the empty
edge tokens, so the result is ` a ` instead. -/
theorem reflect_boundary_kept_cex :
    reflectGroup [] ".a." [] = some (" a ", []) ∧ (" a " : String) ≠ "a" := by decide

/-- C9 amended: on text none of whose tokens matches any substitution
pattern, the reflection pass returns the split tokens rejoined with single
spaces: interior boundary runs collapse to one space, and a leading or
trailing boundary run becomes a leading or trailing space rather than being
removed. -/
theorem reflect_id_no_match (subs : List Replacer) (text : String) (g : Rng)
    (h : ∀ t ∈ splitBoundaries text, ∀ u ∈ subs, u.original.MatchString t = false) :
    reflectGroup subs text g = some (String.intercalate " " (splitBoundaries text), g) := by
  simp [reflectGroup, substituteTokens_id_of_no_match subs (splitBoundaries text) h g]

/-- C9 witness: a substitution list whose pattern matches no token of
`a b`. -/
theorem reflect_id_no_match_w :
    reflectGroup [⟨literalRegexp "my", ["your"]⟩] "a b" [5] =
      some (String.intercalate " " (splitBoundaries "a b"), [5]) :=
  reflect_id_no_match [⟨literalRegexp "my", ["your"]⟩] "a b" [5] (by decide)

theorem substituteTokens_length (subs : List Replacer) (ts : List String) :
    ∀ g ts2 g2, substituteTokens subs ts g = some (ts2, g2) → ts2.length = ts.length := by
  induction ts with
  | nil =>
    intro g ts2 g2 h
    simp only [substituteTokens, Option.some.injEq, Prod.mk.injEq] at h
    rw [← h.1]
  | cons t ts ih =>
    intro g ts2 g2 h
    cases h1 : substituteToken subs t g with
    | none => simp [substituteTokens, h1] at h
    | some p =>
      obtain ⟨t2, gg⟩ := p
      simp only [substituteTokens, h1] at h
      cases h2 : substituteTokens subs ts gg with
      | none => simp [h2] at h
      | some q =>
        obtain ⟨ts3, g3⟩ := q
        simp only [h2, Option.some.injEq, Prod.mk.injEq] at h
        rw [← h.1]
        simp [ih gg ts3 g3 h2]

/-- C5 counterexample: the claim promises the reflected result never ends
with whitespace; reflecting `a.` keeps the empty trailing token and applies
no trim, so the result is `a ` and ends in a space. -/
theorem reflect_no_trim_cex :
    reflectGroup [] "a." [] = some ("a ", []) ∧ ("a " : String).data.getLast? = some ' ' := by
  decide

/-- C5 amended: the reflection pass splits its input on one-or-more runs of
whitespace, comma, period, question mark or exclamation point, keeps the
empty tokens arising at the ends, substitutes tokens without dropping any
(the token count is preserved), and rejoins with a single space separator
with no trimming of the final string. -/
theorem reflect_join_structure (subs : List Replacer) (text : String) (g : Rng)
    (out : String) (g2 : Rng)
    (h : reflectGroup subs text g = some (out, g2)) :
    ∃ ts2, substituteTokens subs (splitBoundaries text) g = some (ts2, g2) ∧
      out = String.intercalate " " ts2 ∧
      ts2.length = (splitBoundaries text).length := by
  unfold reflectGroup at h
  cases hst : substituteTokens subs (splitBoundaries text) g with
  | none => rw [hst] at h; cases h
  | some p =>
    obtain ⟨ts3, g3⟩ := p
    rw [hst] at h
    simp only [Option.some.injEq, Prod.mk.injEq] at h
    obtain ⟨h1, h2⟩ := h
    subst h2
    exact ⟨ts3, rfl, h1.symm, substituteTokens_length subs _ g ts3 g3 hst⟩

/-- C5 witness: reflecting `a b` with no substitutions keeps both tokens and
joins them with one space. -/
theorem reflect_join_structure_w :
    ∃ ts2, substituteTokens [] (splitBoundaries "a b") [] = some (ts2, []) ∧
      "a b" = String.intercalate " " ts2 ∧
      ts2.length = (splitBoundaries "a b").length :=
  reflect_join_structure [] "a b" [] "a b" [] (by decide)

theorem substituteToken_total (subs : List Replacer) (t : String) (g : Rng)
    (h : ∀ s ∈ subs, s.replacements ≠ []) :
    ∃ p, substituteToken subs t g = some p := by
  induction subs with
  | nil => exact ⟨(t, g), rfl⟩
  | cons s rest ih =>
    cases hm : s.original.MatchString t with
    | true =>
      have hlen : s.replacements.length ≠ 0 := fun h0 =>
        h s (List.mem_cons_self s rest) (List.length_eq_zero.mp h0)
      exact ⟨(s.replacements.getD (g.headD 0 % s.replacements.length) "", g.tail),
        by simp [substituteToken, hm, intn, hlen]⟩
    | false =>
      obtain ⟨p, hp⟩ := ih (fun u hu => h u (List.mem_cons_of_mem s hu))
      exact ⟨p, by simp [substituteToken, hm, hp]⟩

theorem substituteTokens_total (subs : List Replacer) (ts : List String)
    (h : ∀ s ∈ subs, s.replacements ≠ []) :
    ∀ g, ∃ p, substituteTokens subs ts g = some p := by
  induction ts with
  | nil => intro g; exact ⟨([], g), rfl⟩
  | cons t ts ih =>
    intro g
    obtain ⟨⟨t2, g2⟩, h1⟩ := substituteToken_total subs t g h
    obtain ⟨⟨ts2, g3⟩, h2⟩ := ih g2
    exact ⟨(t2 :: ts2, g3), by simp [substituteTokens, h1, h2]⟩

theorem fillFrom_total (subs : List Replacer) (groups : List String)
    (h : ∀ s ∈ subs, s.replacements ≠ []) :
    ∀ i out g, ∃ p, fillFrom subs i groups out g = some p := by
  induction groups with
  | nil => intro i out g; exact ⟨(out, g), rfl⟩
  | cons gr rest ih =>
    intro i out g
    obtain ⟨⟨ts2, g2⟩, h1⟩ := substituteTokens_total subs (splitBoundaries gr) h g
    have h2 : reflectGroup subs gr g = some (String.intercalate " " ts2, g2) := by
      simp [reflectGroup, h1]
    obtain ⟨p, h3⟩ := ih (i + 1) (strReplaceAll out (placeholder i) (String.intercalate " " ts2)) g2
    exact ⟨p, by simp [fillFrom, h2, h3]⟩

theorem respondAux_total (subs resps : List Replacer) (input : String) (g : Rng)
    (h1 : ∀ r ∈ resps, r.replacements ≠ [])
    (h2 : ∀ s ∈ subs, s.replacements ≠ []) :
    ∃ out, respondAux subs resps input g = some out := by
  induction resps with
  | nil => exact ⟨"I don't know what to say.", rfl⟩
  | cons r rest ih =>
    cases hm : r.original.FindStringSubmatch input with
    | none =>
      obtain ⟨out, ho⟩ := ih (fun q hq => h1 q (List.mem_cons_of_mem r hq))
      exact ⟨out, by simp [respondAux, hm, ho]⟩
    | some ms =>
      have hlen : r.replacements.length ≠ 0 := fun h0 =>
        h1 r (List.mem_cons_self r rest) (List.length_eq_zero.mp h0)
      obtain ⟨⟨out, g3⟩, hf⟩ := fillFrom_total subs (ms.drop 1) h2 1
        (r.replacements.getD (g.headD 0 % r.replacements.length) "") g.tail
      refine ⟨out, ?_⟩
      simp only [respondAux, hm]
      simp only [applyRule, intn, hlen, if_neg, ite_false, eq_self_iff_true]
      rw [hf]

/-- C3 counterexample: the loader accepts a file whose single section is a
pattern line with no candidate lines; on an input matching that rule,
`RespondTo` reaches `rand.Intn 0` and aborts instead of returning a
string. -/
theorem respondTo_empty_rule_none :
    respondTo ⟨readReplacersFromLines literalRegexp ["a"], []⟩ "a" [0] = none := by decide

/-- C3 amended: `RespondTo` always returns a string on every engine whose
response rules and substitution rules each carry at least one candidate; the
loader can produce rules with zero candidates, on which the random-candidate
selection aborts. -/
theorem respondTo_total (e : Eliza) (input : String) (g : Rng)
    (h1 : ∀ r ∈ e.responses, r.replacements ≠ [])
    (h2 : ∀ s ∈ e.substitutions, s.replacements ≠ []) :
    ∃ out, respondTo e input g = some out :=
  respondAux_total e.substitutions e.responses input g h1 h2

/-- C3 witness: a concrete engine with non-empty candidate lists. -/
theorem respondTo_total_w :
    ∃ out,
      respondTo ⟨[⟨literalRegexp "hi", ["hello"]⟩], [⟨literalRegexp "me", ["you"]⟩]⟩
        "hi" [0] = some out :=
  respondTo_total ⟨[⟨literalRegexp "hi", ["hello"]⟩], [⟨literalRegexp "me", ["you"]⟩]⟩
    "hi" [0] (by decide) (by decide)

/-- C4 counterexample: a file consisting of the single pattern line `a`
parses successfully into one rule whose candidate list is empty, so a
successfully parsed rule set can hold a rule with zero candidates and no
parse error exists. -/
theorem readReplacers_zero_candidates_cex :
    (readReplacersFromLines literalRegexp ["a"]).map (fun r => r.replacements) = [[]] := by
  decide

/-- C4 amended: parsing a rule file in which a section ends (at a blank line
or end-of-file) with a pattern line but zero candidate lines succeeds
silently and yields a Rule with an empty candidate list; the parser has no
error outcome. -/
theorem readReplacers_empty_section_ok (compile : String → Regexp) (pat : String)
    (h1 : strHasPre pat "#" = false) (h2 : pat.length ≠ 0) :
    (readReplacersFromLines compile [pat]).map (fun r => r.replacements) = [[]] := by
  simp [readReplacersFromLines, readLoop, h1, h2]

/-- C4 witness at the one-line file `x`. -/
theorem readReplacers_empty_section_ok_w :
    (readReplacersFromLines literalRegexp ["x"]).map (fun r => r.replacements) = [[]] :=
  readReplacers_empty_section_ok literalRegexp "x" (by decide) (by decide)

/-- C6: with the ten-group rule of `e6` and the template `Why $10?`, the
ascending replace-all interpolation lets the `$1` step consume the head of
the `$10` placeholder, so the reply is `Why a0?` — the reflected first group
followed by a literal zero — and not `Why j?`, the reflected tenth group. -/
theorem respondTo_dollar_ten_consumed :
    respondTo e6 "abcdefghij" [0] = some "Why a0?" ∧
      ("Why a0?" : String) ≠ "Why j?" := by decide

/-- C7 counterexample: `RespondTo` never strips `~~`, so a matched template
carrying markers is returned with the markers still present. -/
theorem respondTo_keeps_markers_cex :
    respondTo e7 "a" [0] = some "~~hi~~" ∧
      containsSub "~~".data "~~hi~~".data = true := by decide

theorem analyseAux_append_of_none (subs : List Substitution) (pre rest : List Response)
    (input : String) (g : Rng)
    (h : ∀ p ∈ pre, p.question.FindStringSubmatch input = none) :
    analyseAux subs (pre ++ rest) input g = analyseAux subs rest input g := by
  induction pre with
  | nil => rfl
  | cons p ps ih =>
    have hp : p.question.FindStringSubmatch input = none := h p (List.mem_cons_self p ps)
    simp only [List.cons_append, analyseAux, hp]
    exact ih (fun q hq => h q (List.mem_cons_of_mem p hq))

/-- C7 amended: it is the `analyse` variant that strips the `~~` marker, and
there it is the last step, applied to the fully interpolated answer of the
first matching rule — so markers straddling placeholder boundaries are also
removed; `RespondTo` applies no stripping and its reply can contain `~~`. -/
theorem analyse_strips_markers_last (e : ElizaA) (pre post : List Response) (r : Response)
    (ms : List String) (input : String) (g : Rng)
    (he : e.responses = pre ++ r :: post)
    (hpre : ∀ p ∈ pre, p.question.FindStringSubmatch input = none)
    (hr : r.question.FindStringSubmatch input = some ms)
    (hn : r.answers ≠ []) :
    analyse e input g =
      some (strReplaceAll
        (fillA e.substitutions 1 (ms.drop 1)
          (r.answers.getD (g.headD 0 % r.answers.length) "")) "~~" "") := by
  have hlen : r.answers.length ≠ 0 := fun h0 => hn (List.length_eq_zero.mp h0)
  unfold analyse
  rw [he, analyseAux_append_of_none _ _ _ _ _ hpre]
  simp only [analyseAux, hr]
  simp only [intn, hlen, if_neg, ite_false, eq_self_iff_true]

/-- C7 witness, the spec's marker-stripping scenario: the template
`~~I hear you~~ say $1` with captured group `tired` yields
`I hear you say tired`. -/
theorem analyse_strips_markers_last_w :
    analyse eA "I am tired" [0] = some "I hear you say tired" := by
  rw [analyse_strips_markers_last eA [] [] ⟨litGroupsRegexp ["tired"], ["~~I hear you~~ say $1"]⟩
    ["tired", "tired"] "I am tired" [0] rfl (by decide) (by decide) (by decide)]
  decide

/-- C10: interpolation walks the groups in ascending order doing replace-all
on the accumulating reply, so when the reflected text of group 1 is the
literal `$2`, the occurrence it injects into the reply is then replaced by
the reflected text of group 2, whatever the template and remaining group. -/
theorem fillFrom_injects_later_placeholder (tmpl b : String) (g : Rng) :
    fillFrom [] 1 ["$2", b] tmpl g =
      some (strReplaceAll (strReplaceAll tmpl (placeholder 1) "$2") (placeholder 2)
        (String.intercalate " " (splitBoundaries b)), g) := by
  have hsplit : splitBoundaries "$2" = ["$2"] := by decide
  have h1 : reflectGroup [] "$2" g = some ("$2", g) := by
    have hb := substituteTokens_id_of_no_match [] (splitBoundaries "$2") (by simp) g
    rw [reflectGroup, hb, hsplit]
    exact rfl
  have h2 : reflectGroup [] b g = some (String.intercalate " " (splitBoundaries b), g) := by
    have hb := substituteTokens_id_of_no_match [] (splitBoundaries b) (by simp) g
    rw [reflectGroup, hb]
  simp [fillFrom, h1, h2]
